import Mathlib

/-
Verification development for the submodule-manager VS Code extension.

The extension shells out to the `git` CLI; every service method is a sequence
of `execGit(args, cwd)` calls whose outcomes drive pure string/record logic.
We embed the git boundary as an environment

    GitEnv : List String → String → Except String String

mapping an argument vector and a working directory to the outcome of that
invocation: `.ok stdout` (already trimmed, as `execGit` trims) or
`.error message` (the Error thrown by `execGit`).  Each service method then
becomes a pure Lean function of the environment, translated clause by clause
from the TypeScript source (src/services/commitService.ts,
src/services/gitCommandService.ts, src/gitOperations.ts,
src/commands/createBranchCommand.ts).

JavaScript details modelled explicitly:
 * `Map.set` preserves insertion order and overwrites in place; we model a
   Map as an association list with exactly those semantics (`mapSet`).
 * `Set` preserves insertion order and deduplicates (`insertUnique`).
 * `str.split(sep)`, `str.trim()`, `str.startsWith`, `str.includes`,
   `str.toLowerCase()`, `str.substring(0, 8)` are `jsSplit`, `jsTrim`,
   `jsStartsWith`, `jsIncludes`, `jsToLower`, `jsTake _ 8`, all written over
   the character list of the string (the sources only ever feed ASCII, where
   these agree with the JS semantics).
 * `parseInt(s, 10) || 0` is `jsParseIntD`.
 * `Array.prototype.sort` with a consistent comparator is a stable sort; we
   model it with a stable insertion sort over the comparator's order.
 * `new Date(...)` values are carried as their source strings (the claims
   never inspect dates).
-/

namespace SubmoduleManager

/-- Outcome of one `execGit` call: trimmed stdout, or the thrown error text. -/
abbrev GitResult := Except String String

/-- The git boundary: argument vector and working directory to outcome. -/
abbrev GitEnv := List String → String → GitResult

/-- Model of Node's `path.join(root, sub)` as used to build the working
directory of a submodule.  The joined path is only ever used as an opaque key
into the environment, so separator normalisation is irrelevant. -/
def pathJoin (root sub : String) : String := root ++ "/" ++ sub

/-- `CommandResult` from src/types.ts (the optional `data` field is unused by
the operations under verification). -/
structure CommandResult where
  success : Bool
  message : String
deriving Repr, DecidableEq

/-- `SubmoduleStatus` from src/types.ts. -/
inductive SubmoduleStatus where
  | clean
  | modified
  | uninitialized
  | detached
  | conflict
  | unknown
deriving Repr, DecidableEq

/-- `SubmoduleInfo` from src/types.ts (`lastUpdated : Date` and the optional
`isParentRepo` flag are not inspected by any claim and are omitted). -/
structure SubmoduleInfo where
  name : String
  path : String
  url : String
  branch : String
  currentCommit : String
  currentBranch : String
  status : SubmoduleStatus
  hasChanges : Bool
  ahead : Int
  behind : Int
deriving Repr, DecidableEq

/-- `BranchInfo` from src/types.ts, together with the `hasLocal`/`hasRemote`
flags that `BranchService.getBranches` attaches and the commit/date columns
that `GitOperations.getBranches` fills in (`lastCommitDate` carries the raw
date string handed to `new Date`). -/
structure BranchInfo where
  name : String
  isRemote : Bool
  isCurrent : Bool
  commit : String
  hasLocal : Option Bool := none
  hasRemote : Option Bool := none
  lastCommitDate : Option String := none
deriving Repr, DecidableEq

/-- JS `Map.set m k v`: overwrite in place when the key is present, append
otherwise (insertion order preserved). -/
def mapSet (m : List (String × CommandResult)) (k : String) (v : CommandResult) :
    List (String × CommandResult) :=
  if m.any (fun p => p.1 = k) then
    m.map (fun p => if p.1 = k then (k, v) else p)
  else
    m ++ [(k, v)]

/-- JS `Set.add`: append unless already present (insertion order preserved). -/
def insertUnique (l : List String) (x : String) : List String :=
  if l.contains x then l else l ++ [x]

/-- JS `s.includes(sub)`: substring test. -/
def jsIncludes (s sub : String) : Bool := decide (List.IsInfix sub.data s.data)

/-- The JS regex character class `\s` and the whitespace set of `trim` /
`parseInt` (the sources only ever meet its ASCII members). -/
def jsSpace (c : Char) : Bool :=
  c = ' ' || c = '\t' || c = '\n' || c = '\r' || c = '\x0b' || c = '\x0c'

/-- JS `s.substring(0, n)` / the character-prefix of a string. -/
def jsTake (s : String) (n : Nat) : String := String.mk (s.data.take n)

/-- Drop the first `n` characters (used to strip a literal prefix that was
just tested with `startsWith`). -/
def jsDrop (s : String) (n : Nat) : String := String.mk (s.data.drop n)

/-- JS `s.trim()`. -/
def jsTrim (s : String) : String :=
  String.mk (((s.data.dropWhile jsSpace).reverse.dropWhile jsSpace).reverse)

/-- JS `s.startsWith(p)`. -/
def jsStartsWith (s p : String) : Bool := p.data.isPrefixOf s.data

/-- Worker for `jsSplit`: scans one character at a time.  `skip` counts
separator characters still to be consumed after a match; `cur` is the chunk
being built, reversed.  A separator match emits the current chunk and
consumes the separator atomically, exactly as `String.prototype.split`. -/
def jsSplitGo (sep : List Char) : List Char → Nat → List Char → List (List Char)
  | [], _, cur => [cur.reverse]
  | _ :: cs, skip + 1, cur => jsSplitGo sep cs skip cur
  | c :: cs, 0, cur =>
    if sep ≠ [] ∧ sep.isPrefixOf (c :: cs) then
      cur.reverse :: jsSplitGo sep cs (sep.length - 1) []
    else
      jsSplitGo sep cs 0 (c :: cur)

/-- JS `s.split(sep)` (`sep` nonempty in every use by the sources). -/
def jsSplit (s sep : String) : List String :=
  (jsSplitGo sep.data s.data 0 []).map String.mk

/-- JS `s.toLowerCase()` (ASCII agreement with `Char.toLower`). -/
def jsToLower (s : String) : String := String.mk (s.data.map Char.toLower)

/-- The digit-run head of `parseInt(s, 10)`: parse a maximal decimal-digit run. -/
def digitRunVal (l : List Char) : Nat :=
  (l.takeWhile Char.isDigit).foldl (fun acc c => acc * 10 + (c.toNat - '0'.toNat)) 0

/-- JS `parseInt(s, 10)`: skip leading whitespace, optional sign, then a
decimal-digit run; `none` when no digit follows (NaN). -/
def jsParseInt (s : String) : Option Int :=
  let l := s.data.dropWhile jsSpace
  match l with
  | '-' :: rest => if rest.takeWhile Char.isDigit = [] then none else some (-(digitRunVal rest : Int))
  | '+' :: rest => if rest.takeWhile Char.isDigit = [] then none else some (digitRunVal rest : Int)
  | _ => if l.takeWhile Char.isDigit = [] then none else some (digitRunVal l : Int)

/-- JS `parseInt(s, 10) || 0`: NaN collapses to 0. -/
def jsParseIntD (s : String) : Int := (jsParseInt s).getD 0

namespace BranchService

/-- `BranchService.deleteBranch` (src/services/commitService.ts, 302-337).
Returns the `CommandResult` together with the ordered list of git argument
vectors actually invoked (the trace lets us state that the current-branch
guard fires before any mutating command is attempted). -/
def deleteBranch (env : GitEnv) (root submodulePath branchName : String)
    (deleteRemote : Bool) : CommandResult × List (List String) :=
  let fullPath := pathJoin root submodulePath
  -- Check if trying to delete current branch
  match env ["rev-parse", "--abbrev-ref", "HEAD"] fullPath with
  | .error e =>
      ({ success := false, message := "Failed to delete branch: " ++ e },
       [["rev-parse", "--abbrev-ref", "HEAD"]])
  | .ok currentBranch =>
      if currentBranch = branchName then
        ({ success := false,
           message := "Cannot delete the currently checked out branch \x27" ++ branchName ++ "\x27" },
         [["rev-parse", "--abbrev-ref", "HEAD"]])
      else
        -- Delete local branch
        match env ["branch", "-D", branchName] fullPath with
        | .error e =>
            ({ success := false, message := "Failed to delete branch: " ++ e },
             [["rev-parse", "--abbrev-ref", "HEAD"], ["branch", "-D", branchName]])
        | .ok _ =>
            -- Optionally delete remote branch
            if deleteRemote then
              match env ["push", "origin", "--delete", branchName] fullPath with
              | .error e =>
                  ({ success := true,
                     message := "Local branch \x27" ++ branchName ++
                       "\x27 deleted, but failed to delete remote: " ++ e },
                   [["rev-parse", "--abbrev-ref", "HEAD"], ["branch", "-D", branchName],
                    ["push", "origin", "--delete", branchName]])
              | .ok _ =>
                  ({ success := true,
                     message := "Branch \x27" ++ branchName ++
                       "\x27 deleted successfully (local + remote)" },
                   [["rev-parse", "--abbrev-ref", "HEAD"], ["branch", "-D", branchName],
                    ["push", "origin", "--delete", branchName]])
            else
              ({ success := true,
                 message := "Branch \x27" ++ branchName ++ "\x27 deleted successfully" },
               [["rev-parse", "--abbrev-ref", "HEAD"], ["branch", "-D", branchName]])

/-- `BranchService.createBranch` (src/services/commitService.ts, 204-231).
An absent `baseBranch` is modelled by `""` (in the source both `undefined`
and the empty string fail the `if (baseBranch)` truthiness guard). -/
def createBranch (env : GitEnv) (root submodulePath branchName baseBranch : String)
    (checkout : Bool) : CommandResult :=
  let fullPath := pathJoin root submodulePath
  let steps : Except String Unit := do
    -- If base branch specified, start from it
    if baseBranch ≠ "" then
      let _ ← env ["checkout", baseBranch] fullPath
      let _ ← env ["pull", "origin", baseBranch] fullPath
    -- Create the branch
    if checkout then
      let _ ← env ["checkout", "-b", branchName] fullPath
    else
      let _ ← env ["branch", branchName] fullPath
  match steps with
  | .ok _ =>
      { success := true, message := "Branch \x27" ++ branchName ++ "\x27 created successfully" }
  | .error e =>
      { success := false, message := "Failed to create branch: " ++ e }

/-- `BranchService.createBranchAcrossSubmodules` (src/services/commitService.ts,
236-250): sequential per-path execution accumulating a JS `Map`. -/
def createBranchAcrossSubmodules (env : GitEnv) (root : String)
    (submodulePaths : List String) (branchName baseBranch : String)
    (checkout : Bool) : List (String × CommandResult) :=
  submodulePaths.foldl
    (fun results p => mapSet results p (createBranch env root p branchName baseBranch checkout))
    []

/-- `BranchService.deleteBranchAcrossSubmodules` (src/services/commitService.ts,
342-355). -/
def deleteBranchAcrossSubmodules (env : GitEnv) (root : String)
    (submodulePaths : List String) (branchName : String)
    (deleteRemote : Bool) : List (String × CommandResult) :=
  submodulePaths.foldl
    (fun results p => mapSet results p (deleteBranch env root p branchName deleteRemote).1)
    []

end BranchService

/-- Tail matcher for the `\s+(.+)` suffix of `/submodule\.(.+)\.path\s+(.+)/`:
one or more whitespace characters, then a nonempty greedy capture.  When the
whole tail is whitespace the engine backtracks `\s+` by one character and the
capture is that final whitespace character. -/
def matchWsRest (t : List Char) : Option (List Char) :=
  let w := t.takeWhile jsSpace
  let b := t.dropWhile jsSpace
  if w = [] then none
  else if b ≠ [] then some b
  else if 2 ≤ w.length then some (w.drop (w.length - 1))
  else none

/-- One candidate split of `rem` (the text after the literal `submodule.`) at
offset `j`: capture 1 is `rem.take j` (nonempty), then the literal `.path`,
then `\s+(.+)` giving capture 2. -/
def trySplitAt (rem : List Char) (j : Nat) : Option (List Char × List Char) :=
  if j = 0 then none
  else if (rem.drop j).take 5 = ".path".data then
    match matchWsRest (rem.drop (j + 5)) with
    | some rest => some (rem.take j, rest)
    | none => none
  else none

/-- Greedy capture 1: the regex engine prefers the largest valid split offset
(`(.+)` is greedy), so the fold keeps the last success. -/
def greedySplit (rem : List Char) : Option (List Char × List Char) :=
  (List.range (rem.length + 1)).foldl
    (fun acc j => match trySplitAt rem j with | some r => some r | none => acc) none

/-- `line.match(/submodule\.(.+)\.path\s+(.+)/)`: the earliest start position
at which the whole pattern matches, with greedy captures
(src/services/gitCommandService.ts 208). -/
def matchSubmoduleLine : List Char → Option (List Char × List Char)
  | [] => none
  | c :: cs =>
    match (if ("submodule.".data).isPrefixOf (c :: cs) then
             greedySplit ((c :: cs).drop 10) else none) with
    | some r => some r
    | none => matchSubmoduleLine cs

/-- The character class `[a-f0-9]` of the recorded-commit regex. -/
def isHexLower (c : Char) : Bool := ('a' ≤ c && c ≤ 'f') || ('0' ≤ c && c ≤ '9')

/-- Matcher for `\s+([a-f0-9]+)` directly after a literal `commit`: the two
classes are disjoint, so the match needs a nonempty whitespace run followed
immediately by a nonempty hex run. -/
def matchCommitHashAt (t : List Char) : Option (List Char) :=
  if t.takeWhile jsSpace = [] then none
  else
    let hex := (t.dropWhile jsSpace).takeWhile isHexLower
    if hex = [] then none else some hex

/-- `output.match(/commit\s+([a-f0-9]+)/)` (src/services/gitCommandService.ts
471): earliest start, then the capture. -/
def findCommitHash : List Char → Option (List Char)
  | [] => none
  | c :: cs =>
    match (if ("commit".data).isPrefixOf (c :: cs) then
             matchCommitHashAt ((c :: cs).drop 6) else none) with
    | some h => some h
    | none => findCommitHash cs

namespace SubmoduleService

/-- `SubmoduleService.getSubmoduleInfo` (src/services/gitCommandService.ts
243-334).  Total: every git failure is caught inside the method. -/
def getSubmoduleInfo (env : GitEnv) (root name submodulePath : String) : SubmoduleInfo :=
  let fullPath := pathJoin root submodulePath
  -- Get URL
  let url := match env ["config", "--file", ".gitmodules", "submodule." ++ name ++ ".url"] root with
    | .ok u => u
    | .error _ => ""
  -- Get configured branch ("main" default when the lookup fails)
  let branch := match env ["config", "--file", ".gitmodules", "submodule." ++ name ++ ".branch"] root with
    | .ok b => b
    | .error _ => "main"
  match env ["rev-parse", "HEAD"] fullPath with
  | .error _ =>
      -- the enclosing try short-circuits to the catch: status = uninitialized
      { name, path := submodulePath, url, branch, currentCommit := "",
        currentBranch := "", status := .uninitialized, hasChanges := false,
        ahead := 0, behind := 0 }
  | .ok currentCommit =>
      let branchStep :=
        match env ["rev-parse", "--abbrev-ref", "HEAD"] fullPath with
        | .ok b =>
            -- Detached HEAD - show empty branch so UI can display "(detached)"
            if b = "HEAD" then ("", SubmoduleStatus.detached) else (b, SubmoduleStatus.unknown)
        | .error _ => ("", SubmoduleStatus.detached)
      let currentBranch := branchStep.1
      let status0 := branchStep.2
      match env ["status", "--porcelain"] fullPath with
      | .error _ =>
          -- the status query threw after HEAD resolved: the catch sets
          -- uninitialized but keeps the already-resolved commit/branch
          { name, path := submodulePath, url, branch,
            currentCommit := jsTake currentCommit 8, currentBranch,
            status := .uninitialized, hasChanges := false, ahead := 0, behind := 0 }
      | .ok statusOutput =>
          let hasChanges := jsTrim statusOutput != ""
          let status1 :=
            if hasChanges then SubmoduleStatus.modified
            else if status0 ≠ SubmoduleStatus.detached then SubmoduleStatus.clean
            else status0
          let counts :=
            if currentBranch ≠ "" ∧ currentBranch ≠ "HEAD" then
              match env ["rev-list", "--left-right", "--count",
                         "origin/" ++ currentBranch ++ "...HEAD"] fullPath with
              | .ok tracking =>
                  let parts := jsSplit tracking "\t"
                  (jsParseIntD (parts.getD 0 ""), jsParseIntD (parts.getD 1 ""))
              | .error _ => ((0 : Int), (0 : Int))
            else ((0 : Int), (0 : Int))
          { name, path := submodulePath, url, branch,
            currentCommit := jsTake currentCommit 8, currentBranch,
            status := status1, hasChanges, ahead := counts.2, behind := counts.1 }

/-- `SubmoduleService.getSubmodules` (src/services/gitCommandService.ts
199-238).  Because `getSubmoduleInfo` is total, the source's per-entry
`catch` fallback is unreachable and contributes nothing to the model. -/
def getSubmodules (env : GitEnv) (root : String) : List SubmoduleInfo :=
  match env ["config", "--file", ".gitmodules", "--get-regexp", "path"] root with
  | .error _ => []   -- No .gitmodules file or no submodules
  | .ok config =>
      ((jsSplit config "\n").filter (fun line => jsTrim line != "")).filterMap
        (fun line =>
          match matchSubmoduleLine line.data with
          | some r => some (getSubmoduleInfo env root (String.mk r.1) (String.mk r.2))
          | none => none)

/-- `SubmoduleService.getRecordedCommit` (src/services/gitCommandService.ts
467-479). -/
def getRecordedCommit (env : GitEnv) (root submodulePath : String) : String :=
  match env ["ls-tree", "HEAD", submodulePath] root with
  | .error _ => ""
  | .ok output =>
      match findCommitHash output.data with
      | some h => String.mk h
      | none => ""

/-- `SubmoduleService.syncSubmodule` (src/services/gitCommandService.ts
418-429). -/
def syncSubmodule (env : GitEnv) (root submodulePath target : String) : CommandResult :=
  let fullPath := pathJoin root submodulePath
  match env ["fetch", "--all"] fullPath with
  | .error e => { success := false, message := "Failed to sync: " ++ e }
  | .ok _ =>
      match env ["checkout", target] fullPath with
      | .error e => { success := false, message := "Failed to sync: " ++ e }
      | .ok _ => { success := true, message := "Synced to \x27" ++ target ++ "\x27" }

/-- The skip test of `syncAllSubmodules`: `submodulePaths &&
submodulePaths.length > 0 && !submodulePaths.includes(submodule.path)`. -/
def skipsPath (submodulePaths : Option (List String)) (p : String) : Bool :=
  match submodulePaths with
  | some ps => decide (0 < ps.length) && !(ps.contains p)
  | none => false

/-- The entry recorded by one `syncAllSubmodules` iteration for a targeted
submodule. -/
def syncEntry (env : GitEnv) (root : String) (sm : SubmoduleInfo) : CommandResult :=
  let recordedCommit := getRecordedCommit env root sm.path
  if recordedCommit ≠ "" then
    -- Sync to the recorded commit, not the branch
    syncSubmodule env root sm.path recordedCommit
  else
    { success := false,
      message := "No recorded commit found for \x27" ++ sm.path ++ "\x27" }

/-- `SubmoduleService.syncAllSubmodules` (src/services/gitCommandService.ts
435-461): iterates over the enumerated submodules, not over the requested
paths. -/
def syncAllSubmodules (env : GitEnv) (root : String)
    (submodulePaths : Option (List String)) : List (String × CommandResult) :=
  (getSubmodules env root).foldl
    (fun results sm =>
      if skipsPath submodulePaths sm.path then results
      else mapSet results sm.path (syncEntry env root sm))
    []

end SubmoduleService

namespace GitOperations

/-- `GitOperations.getSubmoduleInfo` (src/gitOperations.ts 138-220).  Unlike
`SubmoduleService.getSubmoduleInfo`, the detached-HEAD branch does not clear
`currentBranch` (it stays the literal `HEAD` resolved by git), and
`hasChanges` tests the raw output rather than re-trimming it. -/
def getSubmoduleInfo (env : GitEnv) (root name submodulePath : String) : SubmoduleInfo :=
  let fullPath := pathJoin root submodulePath
  let url := match env ["config", "--file", ".gitmodules", "submodule." ++ name ++ ".url"] root with
    | .ok u => u
    | .error _ => ""
  let branch := match env ["config", "--file", ".gitmodules", "submodule." ++ name ++ ".branch"] root with
    | .ok b => b
    | .error _ => "main"
  match env ["rev-parse", "HEAD"] fullPath with
  | .error _ =>
      { name, path := submodulePath, url, branch, currentCommit := "",
        currentBranch := "", status := .uninitialized, hasChanges := false,
        ahead := 0, behind := 0 }
  | .ok currentCommit =>
      let branchStep :=
        match env ["rev-parse", "--abbrev-ref", "HEAD"] fullPath with
        | .ok b =>
            -- only the status flag is set; currentBranch keeps the raw value
            if b = "HEAD" then (b, SubmoduleStatus.detached) else (b, SubmoduleStatus.unknown)
        | .error _ => ("", SubmoduleStatus.detached)
      let currentBranch := branchStep.1
      let status0 := branchStep.2
      match env ["status", "--porcelain"] fullPath with
      | .error _ =>
          { name, path := submodulePath, url, branch,
            currentCommit := jsTake currentCommit 8, currentBranch,
            status := .uninitialized, hasChanges := false, ahead := 0, behind := 0 }
      | .ok statusOutput =>
          let hasChanges := statusOutput != ""
          let status1 :=
            if hasChanges then SubmoduleStatus.modified
            else if status0 ≠ SubmoduleStatus.detached then SubmoduleStatus.clean
            else status0
          let counts :=
            if currentBranch ≠ "" ∧ currentBranch ≠ "HEAD" then
              match env ["rev-list", "--left-right", "--count",
                         "origin/" ++ currentBranch ++ "...HEAD"] fullPath with
              | .ok tracking =>
                  let parts := jsSplit tracking "\t"
                  (jsParseIntD (parts.getD 0 ""), jsParseIntD (parts.getD 1 ""))
              | .error _ => ((0 : Int), (0 : Int))
            else ((0 : Int), (0 : Int))
          { name, path := submodulePath, url, branch,
            currentCommit := jsTake currentCommit 8, currentBranch,
            status := status1, hasChanges, ahead := counts.2, behind := counts.1 }

/-- `GitOperations.getBranches` (src/gitOperations.ts 252-297): one descriptor
per parsed line, no deduplication across the local/remote namespaces.
`name.replace('origin/', '')` removes the first occurrence of `origin/`; under
the `isRemote` guard that occurrence is the 7-character leading prefix. -/
def getBranches (env : GitEnv) (root submodulePath : String) : List BranchInfo :=
  let fullPath := pathJoin root submodulePath
  match env ["fetch", "--all"] fullPath with
  | .error _ => []
  | .ok _ =>
      let currentBranch :=
        match env ["rev-parse", "--abbrev-ref", "HEAD"] fullPath with
        | .ok b => b
        | .error _ => ""   -- Detached HEAD
      match env ["branch", "-a",
                 "--format=%(refname:short)|%(objectname:short)|%(committerdate:iso)"] fullPath with
      | .error _ => []
      | .ok output =>
          ((jsSplit output "\n").filter (fun l => jsTrim l != "")).filterMap (fun line =>
            let parts := jsSplit line "|"
            let name := parts.getD 0 ""
            let isRemote := jsStartsWith name "origin/"
            let cleanName := if isRemote then jsDrop name 7 else name
            -- Skip HEAD reference
            if cleanName == "HEAD" || name == "origin/HEAD" then none
            else
              some { name := cleanName, isRemote,
                     isCurrent := cleanName == currentBranch,
                     commit := parts.getD 1 "",
                     lastCommitDate :=
                       if parts.getD 2 "" != "" then some (parts.getD 2 "") else none })

end GitOperations

namespace BranchService

/-- Accumulator of the first pass of `BranchService.getBranches`. -/
structure PassState where
  localNames : List String
  remoteNames : List String
  currentBranchName : String
deriving Repr, DecidableEq

/-- `trimmed.replace(/^\*\s*/, '')` : drop a leading `*` and the whitespace
run after it (no change when the line does not start with `*`). -/
def stripStarMarker (s : String) : String :=
  match s.data with
  | '*' :: rest => String.mk (rest.dropWhile jsSpace)
  | _ => s

/-- The two sequential prefix strips
`.replace(/^remotes\/origin\//, '').replace(/^origin\//, '')`. -/
def stripRemoteNamespace (s : String) : String :=
  let s1 := if jsStartsWith s "remotes/origin/" then jsDrop s 15 else s
  if jsStartsWith s1 "origin/" then jsDrop s1 7 else s1

/-- One line of the first pass of `BranchService.getBranches`
(src/services/commitService.ts 143-165): categorise into the local / remote
name sets, remembering the current branch. -/
def firstPassStep (st : PassState) (line : String) : PassState :=
  let trimmed := jsTrim line
  if trimmed = "" || jsIncludes trimmed "HEAD" then st
  else
    let isCurrent := jsStartsWith trimmed "*"
    let branchName := jsTrim (stripStarMarker trimmed)
    let isRemote := jsStartsWith branchName "remotes/origin/" || jsStartsWith branchName "origin/"
    let cleanName := stripRemoteNamespace branchName
    let st1 := if isCurrent && !isRemote then { st with currentBranchName := cleanName } else st
    if isRemote then { st1 with remoteNames := insertUnique st1.remoteNames cleanName }
    else { st1 with localNames := insertUnique st1.localNames cleanName }

/-- The whole first pass over the `git branch -a` output. -/
def firstPass (output : String) : PassState :=
  (jsSplit output "\n").foldl firstPassStep
    { localNames := [], remoteNames := [], currentBranchName := "" }

/-- Second pass (167-185): the descriptor built for one deduplicated name.
Local classification takes precedence (`isRemote = hasRemoteCopy &&
!hasLocalCopy`); consequently the source's `isRemote && hasLocalCopy`
condition for `hasLocal` can never hold and the flag stays undefined. -/
def mkBranchEntry (st : PassState) (name : String) : BranchInfo :=
  let hasLocalCopy := st.localNames.contains name
  let hasRemoteCopy := st.remoteNames.contains name
  let isRemote := hasRemoteCopy && !hasLocalCopy
  { name, isRemote, isCurrent := name == st.currentBranchName, commit := "",
    hasLocal := if isRemote && hasLocalCopy then some true else none,
    hasRemote := if !isRemote && hasRemoteCopy then some true else none }

/-- The sort comparator (188-192): current branch first, then by name.  The
source orders names with `localeCompare`; byte order stands in for the locale
order (no claim depends on the relative order of two non-current entries). -/
def branchLE (a b : BranchInfo) : Bool :=
  if a.isCurrent then true else if b.isCurrent then false else decide (a.name ≤ b.name)

/-- Stable insertion used to model `Array.prototype.sort` (a stable sort in
every modern engine; for the consistent comparators arising here all stable
sorts agree). -/
def sortInsert (le : BranchInfo → BranchInfo → Bool) (x : BranchInfo) :
    List BranchInfo → List BranchInfo
  | [] => [x]
  | y :: ys => if le x y then x :: y :: ys else y :: sortInsert le x ys

/-- Stable sort by `le`. -/
def stableSort (le : BranchInfo → BranchInfo → Bool) : List BranchInfo → List BranchInfo
  | [] => []
  | x :: xs => sortInsert le x (stableSort le xs)

/-- `BranchService.getBranches` (src/services/commitService.ts 131-199):
two-pass parse of `git branch -a`, deduplicated union, then sort. -/
def getBranches (env : GitEnv) (root submodulePath : String) : List BranchInfo :=
  let fullPath := pathJoin root submodulePath
  match env ["branch", "-a"] fullPath with
  | .error _ => []   -- the catch logs and falls through to the accumulator
  | .ok output =>
      let st := firstPass output
      let allNames := (st.localNames ++ st.remoteNames).foldl insertUnique []
      stableSort branchLE (allNames.map (mkBranchEntry st))

end BranchService

/-- The character class kept by `toKebabCase`'s strip step: `[a-z0-9\s-]`
(applied after lower-casing). -/
def kebabAllowed (c : Char) : Bool :=
  ('a' ≤ c && c ≤ 'z') || ('0' ≤ c && c ≤ '9') || jsSpace c || c = '-'

/-- Worker for `collapseRuns`: `inRun` records whether the previous character
was in the class (so the run's replacement was already emitted). -/
def collapseRunsGo (p : Char → Bool) (r : Char) : Bool → List Char → List Char
  | _, [] => []
  | inRun, c :: cs =>
    if p c then
      if inRun then collapseRunsGo p r true cs
      else r :: collapseRunsGo p r true cs
    else c :: collapseRunsGo p r false cs

/-- `.replace(/X+/g, r)` for a character class `p`: every maximal nonempty
run of `p`-characters becomes the single character `r`. -/
def collapseRuns (p : Char → Bool) (r : Char) (l : List Char) : List Char :=
  collapseRunsGo p r false l

/-- `.replace(/^-|-$/g, '')`: the global match removes one leading hyphen and
one (not yet consumed) trailing hyphen. -/
def stripEdgeHyphens (l : List Char) : List Char :=
  let l1 := match l with
    | '-' :: rest => rest
    | other => other
  match l1.reverse with
  | '-' :: rest => rest.reverse
  | _ => l1

/-- `toKebabCase` (src/commands/createBranchCommand.ts 33-39): lower-case,
strip characters outside `[a-z0-9\s-]`, collapse whitespace runs to `-`,
collapse `-` runs, trim edge hyphens.  (`Char.toLower` agrees with the JS
`toLowerCase` on the ASCII input this wizard feeds it.) -/
def toKebabCase (s : String) : String :=
  String.mk (stripEdgeHyphens (collapseRuns (fun c => c = '-') '-'
    (collapseRuns jsSpace '-' ((s.data.map Char.toLower).filter kebabAllowed))))

/-- The bugfix/feature/task arm of the create-branch wizard
(src/commands/createBranchCommand.ts 158-177).  The quick-pick label carries
the trailing slash (`${p}/`), so the built name is
`{p}/{ticketId}-{kebab(title)}` when a ticket id was entered and
`{p}/{kebab(title)}` otherwise (a cancelled or empty ticket input is falsy). -/
def buildTicketBranchName (p ticketId taskTitle : String) : String :=
  let kebabTitle := toKebabCase taskTitle
  if ticketId ≠ "" then p ++ "/" ++ ticketId ++ "-" ++ kebabTitle
  else p ++ "/" ++ kebabTitle

namespace createBranchCommand

/-- `branchHierarchy` (src/commands/createBranchCommand.ts 11-16): the prefix
table keyed by category; `none` models an absent key. -/
def branchHierarchy : String → Option (List String)
  | "main" => some ["bugfix", "release", "dev"]
  | "dev" => some ["feature", "release"]
  | "feature" => some ["feature", "task"]
  | "task" => some ["task"]
  | _ => none

/-- `getBaseBranchType` (src/commands/createBranchCommand.ts 21-28). -/
def getBaseBranchType (branch : String) : String :=
  let lower := jsToLower branch
  if lower = "main" || lower = "master" then "main"
  else if lower = "dev" || jsStartsWith lower "dev/" || jsStartsWith lower "dev-" then "dev"
  else if jsStartsWith lower "feature/" || jsStartsWith lower "feature-" then "feature"
  else if lower = "task" || jsStartsWith lower "task/" || jsStartsWith lower "task-" then "task"
  else "unknown"

/-- The rule lookup of the wizard's step 3 (line 113):
`branchHierarchy[branchType] || { prefixes: ['bugfix', 'feature', 'task',
'release', 'dev'], ... }`. -/
def legalPrefixes (baseBranch : String) : List String :=
  match branchHierarchy (getBaseBranchType baseBranch) with
  | some rules => rules
  | none => ["bugfix", "feature", "task", "release", "dev"]

end createBranchCommand

/- The branch-naming script emitted into the webview by `getScripts`
(src/services/commitService.ts 879-935). -/
namespace WebviewScript

/-- The webview's `branchHierarchy` table (883-888). -/
def branchHierarchy : String → Option (List String)
  | "main" => some ["bugfix", "release", "dev"]
  | "master" => some ["bugfix", "release", "dev"]
  | "dev" => some ["feature"]
  | "feature" => some ["task"]
  | _ => none

/-- The webview's `getBaseBranchType` (902-908): defaults to the `main`
category for anything unrecognised. -/
def getBaseBranchType (baseBranch : String) : String :=
  let lower := jsToLower baseBranch
  if lower = "main" || lower = "master" then "main"
  else if lower = "dev" || jsStartsWith lower "dev/" || jsStartsWith lower "dev-" then "dev"
  else if jsStartsWith lower "feature/" || jsStartsWith lower "feature-" then "feature"
  else "main"   -- Default to main rules

/-- `updatePrefixOptions`'s rule lookup (913):
`branchHierarchy[branchType] || branchHierarchy['main']`. -/
def legalPrefixes (baseBranch : String) : List String :=
  match branchHierarchy (getBaseBranchType baseBranch) with
  | some rules => rules
  | none => ["bugfix", "release", "dev"]   -- branchHierarchy['main']

end WebviewScript

/-! ### Helper lemmas about the JS `Map`/`Set` models -/

lemma mapSet_of_not_mem (m : List (String × CommandResult)) (k : String) (v : CommandResult)
    (h : m.any (fun p => p.1 = k) = false) : mapSet m k v = m ++ [(k, v)] := by
  simp [mapSet, h]

/-- Folding `Map.set` over pairwise-distinct keys appends one entry per
element, in traversal order. -/
lemma foldl_mapSet_eq_append {α : Type} (key : α → String) (val : α → CommandResult) :
    ∀ (l : List α) (acc : List (String × CommandResult)),
      (l.map key).Nodup → (∀ x ∈ l, acc.any (fun p => p.1 = key x) = false) →
      l.foldl (fun m x => mapSet m (key x) (val x)) acc =
        acc ++ l.map (fun x => (key x, val x)) := by
  intro l
  induction l with
  | nil => intro acc _ _; simp
  | cons x xs ih =>
      intro acc hnd hacc
      have hx : acc.any (fun p => p.1 = key x) = false := hacc x (by simp)
      have hnd2 : (key x :: xs.map key).Nodup := by rw [List.map_cons] at hnd; exact hnd
      obtain ⟨hnotmem, hnd'⟩ := List.nodup_cons.mp hnd2
      have hne : ∀ y ∈ xs, key y ≠ key x := by
        intro y hy hkey
        exact hnotmem (hkey ▸ List.mem_map_of_mem key hy)
      have hacc' : ∀ y ∈ xs, (acc ++ [(key x, val x)]).any (fun p => p.1 = key y) = false := by
        intro y hy
        simp only [List.any_append, Bool.or_eq_false_iff]
        refine ⟨hacc y (List.mem_cons_of_mem _ hy), ?_⟩
        simp [Ne.symm (hne y hy)]
      calc (x :: xs).foldl (fun m z => mapSet m (key z) (val z)) acc
      _ = xs.foldl (fun m z => mapSet m (key z) (val z)) (acc ++ [(key x, val x)]) := by
            simp [List.foldl_cons, mapSet_of_not_mem acc (key x) (val x) hx]
      _ = acc ++ [(key x, val x)] ++ xs.map (fun z => (key z, val z)) := ih _ hnd' hacc'
      _ = acc ++ (x :: xs).map (fun z => (key z, val z)) := by simp

/-- A fold whose body skips the elements selected by `q` equals the fold over
the filtered list. -/
lemma foldl_skip_eq_foldl_filter {α β : Type} (q : α → Bool) (f : β → α → β) :
    ∀ (l : List α) (acc : β),
      l.foldl (fun m x => if q x then m else f m x) acc =
        (l.filter (fun x => !q x)).foldl f acc := by
  intro l
  induction l with
  | nil => intro acc; simp
  | cons x xs ih =>
      intro acc
      by_cases hx : q x <;> simp [List.foldl_cons, List.filter_cons, hx, ih]

/-- `BranchService.createBranchAcrossSubmodules` over pairwise-distinct paths
is exactly the per-path results, keyed in input order. -/
lemma createBranchAcross_eq_map (env : GitEnv) (root : String) (paths : List String)
    (branchName baseBranch : String) (checkout : Bool) (hnd : paths.Nodup) :
    BranchService.createBranchAcrossSubmodules env root paths branchName baseBranch checkout =
      paths.map (fun p => (p, BranchService.createBranch env root p branchName baseBranch checkout)) := by
  have := foldl_mapSet_eq_append (fun p : String => p)
    (fun p => BranchService.createBranch env root p branchName baseBranch checkout)
    paths [] (by simpa using hnd) (by simp)
  simpa [BranchService.createBranchAcrossSubmodules] using this

/-- `BranchService.deleteBranchAcrossSubmodules` over pairwise-distinct paths
is exactly the per-path results, keyed in input order. -/
lemma deleteBranchAcross_eq_map (env : GitEnv) (root : String) (paths : List String)
    (branchName : String) (deleteRemote : Bool) (hnd : paths.Nodup) :
    BranchService.deleteBranchAcrossSubmodules env root paths branchName deleteRemote =
      paths.map (fun p => (p, (BranchService.deleteBranch env root p branchName deleteRemote).1)) := by
  have := foldl_mapSet_eq_append (fun p : String => p)
    (fun p => (BranchService.deleteBranch env root p branchName deleteRemote).1)
    paths [] (by simpa using hnd) (by simp)
  simpa [BranchService.deleteBranchAcrossSubmodules] using this

/-- The submodules `syncAllSubmodules` actually processes: the enumerated ones
that the optional path list does not exclude. -/
def syncTargets (env : GitEnv) (root : String)
    (submodulePaths : Option (List String)) : List SubmoduleInfo :=
  (SubmoduleService.getSubmodules env root).filter
    (fun sm => !SubmoduleService.skipsPath submodulePaths sm.path)

/-- `syncAllSubmodules` produces exactly one entry per processed submodule, in
enumeration order (assuming the enumerated paths are pairwise distinct). -/
lemma syncAllSubmodules_eq_map (env : GitEnv) (root : String)
    (submodulePaths : Option (List String))
    (hnd : ((SubmoduleService.getSubmodules env root).map (fun sm => sm.path)).Nodup) :
    SubmoduleService.syncAllSubmodules env root submodulePaths =
      (syncTargets env root submodulePaths).map
        (fun sm => (sm.path, SubmoduleService.syncEntry env root sm)) := by
  have hskip := foldl_skip_eq_foldl_filter
    (fun sm : SubmoduleInfo => SubmoduleService.skipsPath submodulePaths sm.path)
    (fun m sm => mapSet m sm.path (SubmoduleService.syncEntry env root sm))
    (SubmoduleService.getSubmodules env root) []
  have hnd' : ((syncTargets env root submodulePaths).map (fun sm => sm.path)).Nodup := by
    refine List.Nodup.sublist ?_ hnd
    exact List.Sublist.map _ (List.filter_sublist _)
  have := foldl_mapSet_eq_append (fun sm : SubmoduleInfo => sm.path)
    (fun sm => SubmoduleService.syncEntry env root sm)
    (syncTargets env root submodulePaths) [] hnd' (by simp)
  calc SubmoduleService.syncAllSubmodules env root submodulePaths
  _ = (syncTargets env root submodulePaths).foldl
        (fun m sm => mapSet m sm.path (SubmoduleService.syncEntry env root sm)) [] := by
        simpa [SubmoduleService.syncAllSubmodules, syncTargets] using hskip
  _ = _ := by simpa using this

/-! ### Claim C1: shape of the result maps of the bulk operations -/

/-- Concrete environment in which every git invocation fails (in particular
there is no `.gitmodules`, so no submodule is enumerated). -/
def envC1 : GitEnv := fun _ _ => .error "fatal: not a git repository"

/-- C1, counterexample.  The claim says every bulk operation given K target
paths returns a map with exactly K entries, one per input path.  It fails for
`syncAllSubmodules`: the result map is keyed by the *enumerated* submodules,
so a requested path that matches no enumerated submodule contributes no entry
(here: 1 requested path, 0 entries).  It also fails for
`createBranchAcrossSubmodules` when the input list repeats a path, because JS
`Map.set` overwrites (here: 2 input paths, 1 entry). -/
theorem claim_C1_counterexample :
    (SubmoduleService.syncAllSubmodules envC1 "w" (some ["libA"])).length = 0 ∧
    (BranchService.createBranchAcrossSubmodules envC1 "w" ["libA", "libA"] "b" "" true).length = 1 := by
  exact ⟨by decide, by decide⟩

/-- C1 (amended): `createBranchAcrossSubmodules` and
`deleteBranchAcrossSubmodules`, given pairwise-distinct target paths, return
one entry per input path, in input order, each entry being that path's own
single-repository result — so no omissions, no duplicates, and a failure on
one path never prevents later paths from being processed.
`syncAllSubmodules` instead returns one entry per *enumerated* submodule that
the optional path filter targets, in enumeration order; requested paths that
match no enumerated submodule are silently omitted. -/
theorem claim_C1_bulk_result_maps :
    (∀ (env : GitEnv) (root : String) (paths : List String) (bn bb : String) (co : Bool),
        paths.Nodup →
        BranchService.createBranchAcrossSubmodules env root paths bn bb co =
          paths.map (fun p => (p, BranchService.createBranch env root p bn bb co))) ∧
    (∀ (env : GitEnv) (root : String) (paths : List String) (bn : String) (dr : Bool),
        paths.Nodup →
        BranchService.deleteBranchAcrossSubmodules env root paths bn dr =
          paths.map (fun p => (p, (BranchService.deleteBranch env root p bn dr).1))) ∧
    (∀ (env : GitEnv) (root : String) (ps : Option (List String)),
        ((SubmoduleService.getSubmodules env root).map (fun sm => sm.path)).Nodup →
        SubmoduleService.syncAllSubmodules env root ps =
          (syncTargets env root ps).map
            (fun sm => (sm.path, SubmoduleService.syncEntry env root sm))) :=
  ⟨fun env root paths bn bb co h => createBranchAcross_eq_map env root paths bn bb co h,
   fun env root paths bn dr h => deleteBranchAcross_eq_map env root paths bn dr h,
   fun env root ps h => syncAllSubmodules_eq_map env root ps h⟩

/-- C1, witness: the amended theorem applied to two concrete distinct paths;
both per-path operations fail under `envC1`, yet the map keeps exactly the
two input keys in input order. -/
theorem claim_C1_witness :
    (["libA", "libB"] : List String).Nodup ∧
    BranchService.createBranchAcrossSubmodules envC1 "w" ["libA", "libB"] "b" "" true =
      [("libA", BranchService.createBranch envC1 "w" "libA" "b" "" true),
       ("libB", BranchService.createBranch envC1 "w" "libB" "b" "" true)] :=
  ⟨by decide, by
    have h := claim_C1_bulk_result_maps.1 envC1 "w" ["libA", "libB"] "b" "" true (by decide)
    simpa using h⟩

/-! ### Claim C4: the legal-prefix computation -/

/-- C4, counterexample.  The claim states that base branch `dev` yields
exactly `{feature}` and an unrecognized base falls back to `main`'s
`{bugfix, release, dev}`.  The command-palette wizard's computation
(src/commands/createBranchCommand.ts) violates both: `dev` yields
`{feature, release}`, and an unrecognized base yields all five prefixes. -/
theorem claim_C4_counterexample :
    createBranchCommand.legalPrefixes "dev" = ["feature", "release"] ∧
    createBranchCommand.legalPrefixes "dev" ≠ ["feature"] ∧
    createBranchCommand.legalPrefixes "release/foo_1.0" =
      ["bugfix", "feature", "task", "release", "dev"] ∧
    createBranchCommand.legalPrefixes "release/foo_1.0" ≠ ["bugfix", "release", "dev"] := by
  exact ⟨by decide, by decide, by decide, by decide⟩

/-- C4 (amended): the *webview* legal-prefix computation behaves exactly as
the claim states — `main`/`master` → {bugfix, release, dev}; `dev`, `dev/*`,
`dev-*` → exactly {feature}; `feature/*`, `feature-*` → exactly {task}; any
unrecognized base falls back to `main`'s {bugfix, release, dev} (all matches
case-insensitive).  The command-palette computation differs: `dev` →
{feature, release}, `feature/*` → {feature, task}, `task` → {task}, and an
unrecognized base falls back to all five prefixes. -/
theorem claim_C4_legal_prefix_sets :
    (∀ b : String, (jsToLower b = "main" ∨ jsToLower b = "master") →
        WebviewScript.legalPrefixes b = ["bugfix", "release", "dev"]) ∧
    (∀ b : String,
        (jsToLower b = "dev" ∨ jsStartsWith (jsToLower b) "dev/" = true ∨
          jsStartsWith (jsToLower b) "dev-" = true) →
        WebviewScript.legalPrefixes b = ["feature"]) ∧
    (∀ b : String,
        (jsStartsWith (jsToLower b) "feature/" = true ∨ jsStartsWith (jsToLower b) "feature-" = true) →
        jsToLower b ≠ "dev" → jsStartsWith (jsToLower b) "dev/" = false →
        jsStartsWith (jsToLower b) "dev-" = false →
        WebviewScript.legalPrefixes b = ["task"]) ∧
    (∀ b : String, jsToLower b ≠ "main" → jsToLower b ≠ "master" → jsToLower b ≠ "dev" →
        jsStartsWith (jsToLower b) "dev/" = false → jsStartsWith (jsToLower b) "dev-" = false →
        jsStartsWith (jsToLower b) "feature/" = false → jsStartsWith (jsToLower b) "feature-" = false →
        WebviewScript.legalPrefixes b = ["bugfix", "release", "dev"]) ∧
    createBranchCommand.legalPrefixes "main" = ["bugfix", "release", "dev"] ∧
    createBranchCommand.legalPrefixes "Master" = ["bugfix", "release", "dev"] ∧
    createBranchCommand.legalPrefixes "dev" = ["feature", "release"] ∧
    createBranchCommand.legalPrefixes "feature/x" = ["feature", "task"] ∧
    createBranchCommand.legalPrefixes "task" = ["task"] ∧
    createBranchCommand.legalPrefixes "release/foo_1.0" =
      ["bugfix", "feature", "task", "release", "dev"] := by
  refine ⟨?_, ?_, ?_, ?_, by decide, by decide, by decide, by decide, by decide, by decide⟩
  · intro b h
    rcases h with h | h <;>
      simp [WebviewScript.legalPrefixes, WebviewScript.getBaseBranchType,
        WebviewScript.branchHierarchy, h]
  · intro b h
    have hm : jsToLower b ≠ "main" := by
      rcases h with h | h | h <;> intro c <;> rw [c] at h <;> exact absurd h (by decide)
    have hms : jsToLower b ≠ "master" := by
      rcases h with h | h | h <;> intro c <;> rw [c] at h <;> exact absurd h (by decide)
    rcases h with h | h | h <;>
      simp [WebviewScript.legalPrefixes, WebviewScript.getBaseBranchType,
        WebviewScript.branchHierarchy, h, hm, hms]
  · intro b h hd hds hdd
    have hm : jsToLower b ≠ "main" := by
      rcases h with h | h <;> intro c <;> rw [c] at h <;> exact absurd h (by decide)
    have hms : jsToLower b ≠ "master" := by
      rcases h with h | h <;> intro c <;> rw [c] at h <;> exact absurd h (by decide)
    rcases h with h | h <;>
      simp [WebviewScript.legalPrefixes, WebviewScript.getBaseBranchType,
        WebviewScript.branchHierarchy, h, hm, hms, hd, hds, hdd]
  · intro b h1 h2 h3 h4 h5 h6 h7
    simp [WebviewScript.legalPrefixes, WebviewScript.getBaseBranchType,
      WebviewScript.branchHierarchy, h1, h2, h3, h4, h5, h6, h7]

/-- C4, witness: the amended theorem applied to the claim's own two probe
inputs (`dev` and `release/foo_1.0`) and a case-variant `Dev/sprint-1`. -/
theorem claim_C4_witness :
    WebviewScript.legalPrefixes "dev" = ["feature"] ∧
    WebviewScript.legalPrefixes "Dev/sprint-1" = ["feature"] ∧
    WebviewScript.legalPrefixes "release/foo_1.0" = ["bugfix", "release", "dev"] :=
  ⟨claim_C4_legal_prefix_sets.2.1 "dev" (Or.inl (by decide)),
   claim_C4_legal_prefix_sets.2.1 "Dev/sprint-1" (Or.inr (Or.inl (by decide))),
   claim_C4_legal_prefix_sets.2.2.2.1 "release/foo_1.0" (by decide) (by decide) (by decide)
     (by decide) (by decide) (by decide) (by decide)⟩

/-! ### Claim C5: branch-name construction for the ticket prefixes -/

lemma mem_of_mem_collapseRunsGo (p : Char → Bool) (r : Char) :
    ∀ (inRun : Bool) (l : List Char) (c : Char),
      c ∈ collapseRunsGo p r inRun l → c = r ∨ (c ∈ l ∧ p c = false) := by
  intro inRun l
  induction l generalizing inRun with
  | nil => intro c hc; simp [collapseRunsGo] at hc
  | cons a as ih =>
      intro c hc
      by_cases hp : p a
      · cases inRun with
        | true =>
            simp only [collapseRunsGo, hp, if_true] at hc
            rcases ih true c hc with h | ⟨h1, h2⟩
            · exact Or.inl h
            · exact Or.inr ⟨List.mem_cons_of_mem _ h1, h2⟩
        | false =>
            simp only [collapseRunsGo, hp, if_true] at hc
            rcases List.mem_cons.mp hc with h | h
            · exact Or.inl h
            · rcases ih true c h with h | ⟨h1, h2⟩
              · exact Or.inl h
              · exact Or.inr ⟨List.mem_cons_of_mem _ h1, h2⟩
      · simp only [collapseRunsGo, hp, if_false] at hc
        rcases List.mem_cons.mp hc with h | h
        · subst h; exact Or.inr ⟨List.mem_cons_self _ _, by simpa using hp⟩
        · rcases ih false c h with h | ⟨h1, h2⟩
          · exact Or.inl h
          · exact Or.inr ⟨List.mem_cons_of_mem _ h1, h2⟩

lemma mem_of_mem_stripEdgeHyphens (l : List Char) (c : Char)
    (h : c ∈ stripEdgeHyphens l) : c ∈ l := by
  have step : ∀ (m : List Char),
      c ∈ (match m.reverse with
           | '-' :: rest => rest.reverse
           | _ => m) → c ∈ m := by
    intro m hm
    split at hm
    next rest heq =>
      have h1 : c ∈ m.reverse := by
        rw [heq]
        exact List.mem_cons_of_mem _ (by simpa using hm)
      simpa using h1
    next => exact hm
  unfold stripEdgeHyphens at h
  have h1 := step _ h
  revert h1
  split
  next rest => exact fun h1 => List.mem_cons_of_mem _ h1
  next => exact fun h1 => h1

/-- Every character of a `toKebabCase` result is a lower-case letter, a
digit, or a hyphen. -/
lemma toKebabCase_chars (s : String) :
    ∀ c ∈ (toKebabCase s).data, ('a' ≤ c ∧ c ≤ 'z') ∨ ('0' ≤ c ∧ c ≤ '9') ∨ c = '-' := by
  intro c hc
  have h1 := mem_of_mem_stripEdgeHyphens _ _ (by simpa [toKebabCase] using hc)
  rcases mem_of_mem_collapseRunsGo _ '-' false _ c h1 with h | ⟨h2, _⟩
  · exact Or.inr (Or.inr h)
  rcases mem_of_mem_collapseRunsGo jsSpace '-' false _ c h2 with h | ⟨h3, hns⟩
  · exact Or.inr (Or.inr h)
  have hall : kebabAllowed c = true := List.of_mem_filter h3
  simp only [kebabAllowed, Bool.or_eq_true, Bool.and_eq_true, decide_eq_true_eq, hns] at hall
  tauto

/-- C5: the ticket-prefix branch builder is the pure function
`{prefix}/{ticketId-}{kebab(title)}`: the ticket id and its trailing hyphen
appear exactly when a ticket id is supplied; every character `toKebabCase`
emits is a lower-case letter, a digit or a hyphen; and the claim's probe
input deterministically yields the expected name. -/
theorem claim_C5_branch_name_construction :
    (∀ p tid title : String, tid ≠ "" →
        buildTicketBranchName p tid title = p ++ "/" ++ tid ++ "-" ++ toKebabCase title) ∧
    (∀ p title : String,
        buildTicketBranchName p "" title = p ++ "/" ++ toKebabCase title) ∧
    (∀ s : String, ∀ c ∈ (toKebabCase s).data,
        ('a' ≤ c ∧ c ≤ 'z') ∨ ('0' ≤ c ∧ c ≤ '9') ∨ c = '-') ∧
    buildTicketBranchName "feature" "ECPT-15474"
        "Design and Implement XML Parser Abstraction Class" =
      "feature/ECPT-15474-design-and-implement-xml-parser-abstraction-class" := by
  refine ⟨?_, ?_, toKebabCase_chars, by decide⟩
  · intro p tid title htid
    simp [buildTicketBranchName, htid]
  · intro p title
    simp [buildTicketBranchName]

/-- C5, witness: the structural clause applied at the claim's probe input. -/
theorem claim_C5_witness :
    ("ECPT-15474" : String) ≠ "" ∧
    buildTicketBranchName "feature" "ECPT-15474"
        "Design and Implement XML Parser Abstraction Class" =
      "feature" ++ "/" ++ "ECPT-15474" ++ "-" ++
        toKebabCase "Design and Implement XML Parser Abstraction Class" :=
  ⟨by decide,
   claim_C5_branch_name_construction.1 "feature" "ECPT-15474"
     "Design and Implement XML Parser Abstraction Class" (by decide)⟩

/-! ### Claim C6: current-branch deletion guard -/

/-- C6: when the current-branch query resolves to the requested branch name,
`deleteBranch` returns `success = false` without throwing, and the only git
command it has invoked is the read-only `rev-parse --abbrev-ref HEAD` — the
guard runs before any mutating command is attempted. -/
theorem claim_C6_delete_current_branch_guard
    (env : GitEnv) (root p branchName : String) (deleteRemote : Bool)
    (h : env ["rev-parse", "--abbrev-ref", "HEAD"] (pathJoin root p) = .ok branchName) :
    (BranchService.deleteBranch env root p branchName deleteRemote).1.success = false ∧
    (BranchService.deleteBranch env root p branchName deleteRemote).2 =
      [["rev-parse", "--abbrev-ref", "HEAD"]] := by
  rw [BranchService.deleteBranch]
  simp [h]

/-- Environment for the C6 witness: on the current-branch query git answers
`main`; any other command would fail. -/
def envC6 : GitEnv := fun args _ =>
  if args = ["rev-parse", "--abbrev-ref", "HEAD"] then .ok "main" else .error "unexpected"

/-- C6, witness: deleting `main` while `main` is checked out. -/
theorem claim_C6_witness :
    envC6 ["rev-parse", "--abbrev-ref", "HEAD"] (pathJoin "w" "libA") = .ok "main" ∧
    (BranchService.deleteBranch envC6 "w" "libA" "main" false).1.success = false ∧
    (BranchService.deleteBranch envC6 "w" "libA" "main" false).2 =
      [["rev-parse", "--abbrev-ref", "HEAD"]] :=
  ⟨rfl,
   (claim_C6_delete_current_branch_guard envC6 "w" "libA" "main" false rfl).1,
   (claim_C6_delete_current_branch_guard envC6 "w" "libA" "main" false rfl).2⟩

/-! ### Claim C9: partial success when the remote delete fails -/

/-- C9: with `deleteRemote = true`, if the guard passes, the forced local
delete succeeds, and the remote delete push fails, `deleteBranch` still
returns `success = true` and its message appends the remote-failure detail. -/
theorem claim_C9_partial_remote_delete
    (env : GitEnv) (root p branchName cur out e : String)
    (h1 : env ["rev-parse", "--abbrev-ref", "HEAD"] (pathJoin root p) = .ok cur)
    (h2 : cur ≠ branchName)
    (h3 : env ["branch", "-D", branchName] (pathJoin root p) = .ok out)
    (h4 : env ["push", "origin", "--delete", branchName] (pathJoin root p) = .error e) :
    (BranchService.deleteBranch env root p branchName true).1 =
      { success := true,
        message := "Local branch \x27" ++ branchName ++
          "\x27 deleted, but failed to delete remote: " ++ e } := by
  rw [BranchService.deleteBranch]
  simp [h1, h2, h3, h4]

/-- Environment for the C9 witness: on branch `main`, local delete of `feat`
succeeds, the remote delete push fails with `network down`. -/
def envC9 : GitEnv := fun args _ =>
  if args = ["rev-parse", "--abbrev-ref", "HEAD"] then .ok "main"
  else if args = ["branch", "-D", "feat"] then .ok ""
  else if args = ["push", "origin", "--delete", "feat"] then .error "network down"
  else .error "unexpected"

/-- C9, witness. -/
theorem claim_C9_witness :
    (BranchService.deleteBranch envC9 "w" "libA" "feat" true).1 =
      { success := true,
        message := "Local branch \x27feat\x27 deleted, but failed to delete remote: network down" } := by
  have h := claim_C9_partial_remote_delete envC9 "w" "libA" "feat" "main" "" "network down"
    rfl (by decide) rfl rfl
  simpa using h

/-! ### Claim C10: the HEAD-substring skip in BranchService.getBranches -/

/-- Environment for C10: the branch listing contains a real branch whose name
merely contains `HEAD` (`fix-HEAD-ref`), besides the symbolic
`remotes/origin/HEAD -> origin/main` line. -/
def envC10 : GitEnv := fun args _ =>
  if args = ["branch", "-a"] then
    .ok "* main\n  fix-HEAD-ref\n  remotes/origin/HEAD -> origin/main\n  dev"
  else .error "unexpected"

/-- C10: the first pass of `BranchService.getBranches` skips, in its
entirety, every line whose trimmed text contains the substring `HEAD`
anywhere (the accumulator is untouched); consequently, on a listing that
names the real branch `fix-HEAD-ref`, the returned descriptors are exactly
`main` and `dev` — `fix-HEAD-ref` is omitted, so the skip is not limited to
the symbolic HEAD ref. -/
theorem claim_C10_head_substring_skip :
    (∀ (st : BranchService.PassState) (line : String),
        jsIncludes (jsTrim line) "HEAD" = true →
        BranchService.firstPassStep st line = st) ∧
    (BranchService.getBranches envC10 "w" "libA").map (fun b => b.name) = ["main", "dev"] ∧
    ∀ b ∈ BranchService.getBranches envC10 "w" "libA", b.name ≠ "fix-HEAD-ref" := by
  refine ⟨?_, by decide, by decide⟩
  intro st line h
  rw [BranchService.firstPassStep]
  simp [h]

/-- C10, witness: the skip clause applied to the concrete `fix-HEAD-ref`
line with a nonempty accumulator. -/
theorem claim_C10_witness :
    jsIncludes (jsTrim "  fix-HEAD-ref") "HEAD" = true ∧
    BranchService.firstPassStep
        { localNames := ["main"], remoteNames := [], currentBranchName := "main" }
        "  fix-HEAD-ref" =
      { localNames := ["main"], remoteNames := [], currentBranchName := "main" } :=
  ⟨by decide,
   claim_C10_head_substring_skip.1
     { localNames := ["main"], remoteNames := [], currentBranchName := "main" }
     "  fix-HEAD-ref" (by decide)⟩

/-! ### Claim C2: invariants of the resolved repository state -/

lemma SubmoduleService.info_detached_imp_branch_empty (env : GitEnv) (root name p : String) :
    (SubmoduleService.getSubmoduleInfo env root name p).status = .detached →
    (SubmoduleService.getSubmoduleInfo env root name p).currentBranch = "" := by
  rw [SubmoduleService.getSubmoduleInfo]
  dsimp only
  rcases h1 : env ["rev-parse", "HEAD"] (pathJoin root p) with e1 | commit
  · simp [h1]
  rcases h2 : env ["rev-parse", "--abbrev-ref", "HEAD"] (pathJoin root p) with e2 | b <;>
    rcases h3 : env ["status", "--porcelain"] (pathJoin root p) with e3 | so <;>
      simp only [h1, h2, h3] <;> (try split_ifs) <;> simp_all

lemma SubmoduleService.info_modified_imp_hasChanges (env : GitEnv) (root name p : String) :
    (SubmoduleService.getSubmoduleInfo env root name p).status = .modified →
    (SubmoduleService.getSubmoduleInfo env root name p).hasChanges = true := by
  rw [SubmoduleService.getSubmoduleInfo]
  dsimp only
  rcases h1 : env ["rev-parse", "HEAD"] (pathJoin root p) with e1 | commit
  · simp [h1]
  rcases h2 : env ["rev-parse", "--abbrev-ref", "HEAD"] (pathJoin root p) with e2 | b <;>
    rcases h3 : env ["status", "--porcelain"] (pathJoin root p) with e3 | so <;>
      simp only [h1, h2, h3] <;> (try split_ifs) <;> simp_all

lemma SubmoduleService.info_uninitialized_imp_counts_zero (env : GitEnv) (root name p : String) :
    (SubmoduleService.getSubmoduleInfo env root name p).status = .uninitialized →
    (SubmoduleService.getSubmoduleInfo env root name p).ahead = 0 ∧
      (SubmoduleService.getSubmoduleInfo env root name p).behind = 0 := by
  rw [SubmoduleService.getSubmoduleInfo]
  dsimp only
  rcases h1 : env ["rev-parse", "HEAD"] (pathJoin root p) with e1 | commit
  · simp [h1]
  rcases h2 : env ["rev-parse", "--abbrev-ref", "HEAD"] (pathJoin root p) with e2 | b <;>
    rcases h3 : env ["status", "--porcelain"] (pathJoin root p) with e3 | so <;>
      simp only [h1, h2, h3] <;> (try split_ifs) <;> simp_all

lemma SubmoduleService.info_of_revparse_fail (env : GitEnv) (root name p e : String)
    (h : env ["rev-parse", "HEAD"] (pathJoin root p) = .error e) :
    (SubmoduleService.getSubmoduleInfo env root name p).status = .uninitialized ∧
    (SubmoduleService.getSubmoduleInfo env root name p).currentCommit = "" ∧
    (SubmoduleService.getSubmoduleInfo env root name p).currentBranch = "" ∧
    (SubmoduleService.getSubmoduleInfo env root name p).hasChanges = false ∧
    (SubmoduleService.getSubmoduleInfo env root name p).ahead = 0 ∧
    (SubmoduleService.getSubmoduleInfo env root name p).behind = 0 := by
  rw [SubmoduleService.getSubmoduleInfo]
  simp [h]

lemma GitOperations.info_modified_imp_dirty (env : GitEnv) (root name p : String) :
    (GitOperations.getSubmoduleInfo env root name p).status = .modified →
    (GitOperations.getSubmoduleInfo env root name p).hasChanges = true := by
  rw [GitOperations.getSubmoduleInfo]
  dsimp only
  rcases h1 : env ["rev-parse", "HEAD"] (pathJoin root p) with e1 | commit
  · simp [h1]
  rcases h2 : env ["rev-parse", "--abbrev-ref", "HEAD"] (pathJoin root p) with e2 | b <;>
    rcases h3 : env ["status", "--porcelain"] (pathJoin root p) with e3 | so <;>
      simp only [h1, h2, h3] <;> (try split_ifs) <;> simp_all

lemma GitOperations.info_detached_branch_raw (env : GitEnv) (root name p : String) :
    (GitOperations.getSubmoduleInfo env root name p).status = .detached →
    (GitOperations.getSubmoduleInfo env root name p).currentBranch = "HEAD" ∨
      (GitOperations.getSubmoduleInfo env root name p).currentBranch = "" := by
  rw [GitOperations.getSubmoduleInfo]
  dsimp only
  rcases h1 : env ["rev-parse", "HEAD"] (pathJoin root p) with e1 | commit
  · simp [h1]
  rcases h2 : env ["rev-parse", "--abbrev-ref", "HEAD"] (pathJoin root p) with e2 | b <;>
    rcases h3 : env ["status", "--porcelain"] (pathJoin root p) with e3 | so <;>
      simp only [h1, h2, h3] <;> (try split_ifs) <;> simp_all

/-- Environment for the C2 counterexample, first half: an ordinary clean
detached-HEAD checkout. -/
def envC2a : GitEnv := fun args _ =>
  if args = ["rev-parse", "HEAD"] then .ok "abcdef1234567890"
  else if args = ["rev-parse", "--abbrev-ref", "HEAD"] then .ok "HEAD"
  else if args = ["status", "--porcelain"] then .ok ""
  else .error "unexpected"

/-- Environment for the C2 counterexample, second half: HEAD resolves but the
working-tree status query fails (e.g. a timeout). -/
def envC2b : GitEnv := fun args _ =>
  if args = ["rev-parse", "HEAD"] then .ok "abcdef1234567890"
  else if args = ["rev-parse", "--abbrev-ref", "HEAD"] then .ok "main"
  else .error "status query failed"

/-- C2, counterexample.  `GitOperations.getSubmoduleInfo` reports a clean
detached checkout with `currentBranch = "HEAD"`, not the empty string; and in
`SubmoduleService.getSubmoduleInfo` a failing status query after a successful
HEAD resolution yields `status = uninitialized` with nonempty commit and
branch fields. -/
theorem claim_C2_counterexample :
    ((GitOperations.getSubmoduleInfo envC2a "w" "libA" "libA").status = .detached ∧
      (GitOperations.getSubmoduleInfo envC2a "w" "libA" "libA").currentBranch = "HEAD") ∧
    ((SubmoduleService.getSubmoduleInfo envC2b "w" "libA" "libA").status = .uninitialized ∧
      (SubmoduleService.getSubmoduleInfo envC2b "w" "libA" "libA").currentCommit = "abcdef12" ∧
      (SubmoduleService.getSubmoduleInfo envC2b "w" "libA" "libA").currentBranch = "main") := by
  exact ⟨⟨by decide, by decide⟩, by decide, by decide, by decide⟩

/-- C2 (amended): for `SubmoduleService.getSubmoduleInfo`, `status = detached`
implies `currentBranch = ""` and `status = modified` implies
`hasChanges = true`, for every environment; `status = uninitialized`
guarantees the ahead/behind counts are zero, and additionally empty
commit/branch fields whenever the uninitialized status stems from the initial
HEAD lookup failing (a failing working-tree status query after a successful
HEAD resolution also yields `uninitialized`, but then the already-resolved
commit/branch are kept).  In `GitOperations.getSubmoduleInfo` the
modified-implies-dirty invariant also holds, but a detached checkout leaves
`currentBranch` as the literal `HEAD` git printed (or `""` when the branch
query itself failed). -/
theorem claim_C2_state_invariants :
    (∀ (env : GitEnv) (root name p : String),
        (SubmoduleService.getSubmoduleInfo env root name p).status = .detached →
        (SubmoduleService.getSubmoduleInfo env root name p).currentBranch = "") ∧
    (∀ (env : GitEnv) (root name p : String),
        (SubmoduleService.getSubmoduleInfo env root name p).status = .modified →
        (SubmoduleService.getSubmoduleInfo env root name p).hasChanges = true) ∧
    (∀ (env : GitEnv) (root name p : String),
        (SubmoduleService.getSubmoduleInfo env root name p).status = .uninitialized →
        (SubmoduleService.getSubmoduleInfo env root name p).ahead = 0 ∧
          (SubmoduleService.getSubmoduleInfo env root name p).behind = 0) ∧
    (∀ (env : GitEnv) (root name p e : String),
        env ["rev-parse", "HEAD"] (pathJoin root p) = .error e →
        (SubmoduleService.getSubmoduleInfo env root name p).status = .uninitialized ∧
        (SubmoduleService.getSubmoduleInfo env root name p).currentCommit = "" ∧
        (SubmoduleService.getSubmoduleInfo env root name p).currentBranch = "" ∧
        (SubmoduleService.getSubmoduleInfo env root name p).ahead = 0 ∧
        (SubmoduleService.getSubmoduleInfo env root name p).behind = 0) ∧
    (∀ (env : GitEnv) (root name p : String),
        (GitOperations.getSubmoduleInfo env root name p).status = .modified →
        (GitOperations.getSubmoduleInfo env root name p).hasChanges = true) ∧
    (∀ (env : GitEnv) (root name p : String),
        (GitOperations.getSubmoduleInfo env root name p).status = .detached →
        (GitOperations.getSubmoduleInfo env root name p).currentBranch = "HEAD" ∨
          (GitOperations.getSubmoduleInfo env root name p).currentBranch = "") :=
  ⟨SubmoduleService.info_detached_imp_branch_empty,
   SubmoduleService.info_modified_imp_hasChanges,
   SubmoduleService.info_uninitialized_imp_counts_zero,
   fun env root name p e h =>
     (fun hh => ⟨hh.1, hh.2.1, hh.2.2.1, hh.2.2.2.2.1, hh.2.2.2.2.2⟩)
       (SubmoduleService.info_of_revparse_fail env root name p e h),
   GitOperations.info_modified_imp_dirty,
   GitOperations.info_detached_branch_raw⟩

/-- Environment for the C2 witness: a clean detached checkout (as `envC2a`)
and, at a second path, a never-cloned submodule whose HEAD lookup fails. -/
def envC2w : GitEnv := fun args cwd =>
  if cwd = pathJoin "w" "libB" then .error "fatal: not a git repository"
  else if args = ["rev-parse", "HEAD"] then .ok "abcdef1234567890"
  else if args = ["rev-parse", "--abbrev-ref", "HEAD"] then .ok "HEAD"
  else if args = ["status", "--porcelain"] then .ok ""
  else .error "unexpected"

/-- C2, witness: the amended invariants applied at a concrete detached
checkout and a concrete uninitialized submodule. -/
theorem claim_C2_witness :
    (SubmoduleService.getSubmoduleInfo envC2w "w" "libA" "libA").status = .detached ∧
    (SubmoduleService.getSubmoduleInfo envC2w "w" "libA" "libA").currentBranch = "" ∧
    (SubmoduleService.getSubmoduleInfo envC2w "w" "libB" "libB").status = .uninitialized ∧
    (SubmoduleService.getSubmoduleInfo envC2w "w" "libB" "libB").currentCommit = "" :=
  ⟨by decide,
   claim_C2_state_invariants.1 envC2w "w" "libA" "libA" (by decide),
   (claim_C2_state_invariants.2.2.2.1 envC2w "w" "libB" "libB"
      "fatal: not a git repository" rfl).1,
   (claim_C2_state_invariants.2.2.2.1 envC2w "w" "libB" "libB"
      "fatal: not a git repository" rfl).2.1⟩

/-! ### Claim C3: cross-namespace deduplication in branch listing -/

lemma mem_insertUnique (l : List String) (x y : String) :
    y ∈ insertUnique l x ↔ y ∈ l ∨ y = x := by
  unfold insertUnique
  split_ifs with h
  · constructor
    · exact Or.inl
    · rintro (h1 | rfl)
      · exact h1
      · simpa using h
  · simp

lemma nodup_insertUnique (l : List String) (x : String) (h : l.Nodup) :
    (insertUnique l x).Nodup := by
  unfold insertUnique
  split_ifs with hc
  · exact h
  · have hx : x ∉ l := by simpa using hc
    rw [List.nodup_append]
    refine ⟨h, List.nodup_singleton x, ?_⟩
    intro a ha hb
    rw [List.mem_singleton] at hb
    subst hb
    exact hx ha

lemma mem_foldl_insertUnique (ls : List String) :
    ∀ (acc : List String) (y : String),
      y ∈ ls.foldl insertUnique acc ↔ y ∈ acc ∨ y ∈ ls := by
  induction ls with
  | nil => intro acc y; simp
  | cons x xs ih =>
      intro acc y
      rw [List.foldl_cons, ih]
      rw [mem_insertUnique]
      constructor
      · rintro ((h | rfl) | h)
        · exact Or.inl h
        · exact Or.inr (List.mem_cons_self _ _)
        · exact Or.inr (List.mem_cons_of_mem _ h)
      · rintro (h | h)
        · exact Or.inl (Or.inl h)
        · rcases List.mem_cons.mp h with rfl | h
          · exact Or.inl (Or.inr rfl)
          · exact Or.inr h

lemma nodup_foldl_insertUnique (ls : List String) :
    ∀ (acc : List String), acc.Nodup → (ls.foldl insertUnique acc).Nodup := by
  induction ls with
  | nil => intro acc h; simpa using h
  | cons x xs ih =>
      intro acc h
      rw [List.foldl_cons]
      exact ih _ (nodup_insertUnique acc x h)

lemma perm_sortInsert (le : BranchInfo → BranchInfo → Bool) (x : BranchInfo) :
    ∀ l, List.Perm (BranchService.sortInsert le x l) (x :: l) := by
  intro l
  induction l with
  | nil => simp [BranchService.sortInsert]
  | cons y ys ih =>
      rw [BranchService.sortInsert]
      cases hxy : le x y
      · simp only [Bool.false_eq_true, if_false]
        exact (ih.cons y).trans (List.Perm.swap x y ys)
      · simp

lemma perm_stableSort (le : BranchInfo → BranchInfo → Bool) :
    ∀ l, List.Perm (BranchService.stableSort le l) l := by
  intro l
  induction l with
  | nil => simp [BranchService.stableSort]
  | cons x xs ih =>
      rw [BranchService.stableSort]
      exact (perm_sortInsert le x _).trans (ih.cons x)

lemma filter_map_entry (st : BranchService.PassState) :
    ∀ (names : List String), names.Nodup → ∀ n ∈ names,
      (names.map (BranchService.mkBranchEntry st)).filter (fun b => b.name == n) =
        [BranchService.mkBranchEntry st n] := by
  intro names
  induction names with
  | nil => intro _ n hn; simp at hn
  | cons m rest ih =>
      intro hnd n hn
      obtain ⟨hm, hnd'⟩ := List.nodup_cons.mp hnd
      rcases List.mem_cons.mp hn with rfl | hn'
      · have hrest : (rest.map (BranchService.mkBranchEntry st)).filter
            (fun b => b.name == n) = [] := by
          rw [List.filter_eq_nil_iff]
          intro b hb
          obtain ⟨r, hr, rfl⟩ := List.mem_map.mp hb
          have : r ≠ n := fun hrn => hm (hrn ▸ hr)
          simpa [BranchService.mkBranchEntry] using this
        simp [List.filter_cons, BranchService.mkBranchEntry, hrest]
      · have hmn : m ≠ n := fun hmn => hm (hmn ▸ hn')
        simp only [List.map_cons, List.filter_cons]
        have : ((BranchService.mkBranchEntry st m).name == n) = false := by
          simpa [BranchService.mkBranchEntry] using hmn
        rw [this]
        exact ih hnd' n hn'

/-- Environment for the C3 counterexample and witness: the repository has
`main` both locally (checked out) and on the remote. -/
def envC3 : GitEnv := fun args _ =>
  if args = ["branch", "-a"] then .ok "* main\n  remotes/origin/main"
  else if args = ["fetch", "--all"] then .ok ""
  else if args = ["rev-parse", "--abbrev-ref", "HEAD"] then .ok "main"
  else if args = ["branch", "-a",
                  "--format=%(refname:short)|%(objectname:short)|%(committerdate:iso)"] then
    .ok "main|aaaa|2025-01-01 10:00:00 +0000\norigin/main|aaaa|2025-01-01 10:00:00 +0000"
  else .error "unexpected"

/-- C3, counterexample.  The claim covers both cited branch listers, but
`GitOperations.getBranches` performs no cross-namespace deduplication: a
branch present both locally and on `origin` yields two descriptors of the
same name, the second classified remote. -/
theorem claim_C3_counterexample :
    ((GitOperations.getBranches envC3 "w" "libA").filter
        (fun b => b.name == "main")).length = 2 ∧
    (GitOperations.getBranches envC3 "w" "libA").map (fun b => (b.name, b.isRemote)) =
      [("main", false), ("main", true)] := by
  exact ⟨by decide, by decide⟩

/-- C3 (amended): in `BranchService.getBranches`, every branch name present
in both the computed local and remote namespace sets yields exactly one
descriptor, and every returned descriptor carrying that name is classified
local (`isRemote = false`).  `GitOperations.getBranches` does not
deduplicate: a name in both namespaces yields one local and one remote
descriptor (concrete conjunct). -/
theorem claim_C3_branch_dedup :
    (∀ (env : GitEnv) (root p output n : String),
        env ["branch", "-a"] (pathJoin root p) = .ok output →
        n ∈ (BranchService.firstPass output).localNames →
        n ∈ (BranchService.firstPass output).remoteNames →
        ((BranchService.getBranches env root p).filter (fun b => b.name == n)).length = 1 ∧
        ∀ b ∈ BranchService.getBranches env root p, b.name = n → b.isRemote = false) ∧
    (GitOperations.getBranches envC3 "w" "libA").map (fun b => (b.name, b.isRemote)) =
      [("main", false), ("main", true)] := by
  refine ⟨?_, by decide⟩
  intro env root p output n h hl hr
  have hge : BranchService.getBranches env root p =
      BranchService.stableSort BranchService.branchLE
        ((((BranchService.firstPass output).localNames ++
            (BranchService.firstPass output).remoteNames).foldl insertUnique []).map
          (BranchService.mkBranchEntry (BranchService.firstPass output))) := by
    rw [BranchService.getBranches]
    simp [h]
  set st := BranchService.firstPass output with hst
  set allNames := (st.localNames ++ st.remoteNames).foldl insertUnique [] with hall
  have hnodup : allNames.Nodup := nodup_foldl_insertUnique _ [] List.nodup_nil
  have hmem : n ∈ allNames := by
    rw [hall, mem_foldl_insertUnique]
    exact Or.inr (List.mem_append_left _ hl)
  have hfil : ((allNames.map (BranchService.mkBranchEntry st)).filter
      (fun b => b.name == n)) = [BranchService.mkBranchEntry st n] :=
    filter_map_entry st allNames hnodup n hmem
  have hperm : List.Perm
      (BranchService.stableSort BranchService.branchLE
        (allNames.map (BranchService.mkBranchEntry st)))
      (allNames.map (BranchService.mkBranchEntry st)) :=
    perm_stableSort _ _
  constructor
  · rw [hge]
    rw [(hperm.filter (fun b => b.name == n)).length_eq, hfil]
    rfl
  · intro b hb hbn
    have hbmem : b ∈ allNames.map (BranchService.mkBranchEntry st) := by
      rw [hge] at hb
      exact hperm.mem_iff.mp hb
    obtain ⟨m, _, rfl⟩ := List.mem_map.mp hbmem
    have hm : m = n := by simpa [BranchService.mkBranchEntry] using hbn
    subst hm
    have hcl : st.localNames.contains m = true := by
      simpa using hl
    simp [BranchService.mkBranchEntry, hcl, hl]

/-- C3, witness: the dedup clause applied to the concrete repository of
`envC3`, where `main` is both local and remote. -/
theorem claim_C3_witness :
    ((BranchService.getBranches envC3 "w" "libA").filter
        (fun b => b.name == "main")).length = 1 ∧
    ∀ b ∈ BranchService.getBranches envC3 "w" "libA", b.name = "main" → b.isRemote = false :=
  claim_C3_branch_dedup.1 envC3 "w" "libA" "* main\n  remotes/origin/main" "main"
    rfl (by decide) (by decide)

/-! ### Claim C7: named failure when no recorded commit resolves -/

/-- C7: every enumerated submodule that the path filter targets and whose
recorded commit resolves to the empty string receives a failure entry naming
the missing recorded commit in the `syncAllSubmodules` result map. -/
theorem claim_C7_missing_recorded_commit
    (env : GitEnv) (root : String) (ps : Option (List String)) (sm : SubmoduleInfo)
    (hnd : ((SubmoduleService.getSubmodules env root).map (fun s => s.path)).Nodup)
    (hsm : sm ∈ SubmoduleService.getSubmodules env root)
    (htgt : SubmoduleService.skipsPath ps sm.path = false)
    (hrec : SubmoduleService.getRecordedCommit env root sm.path = "") :
    (sm.path,
      ({ success := false,
         message := "No recorded commit found for \x27" ++ sm.path ++ "\x27" } : CommandResult))
      ∈ SubmoduleService.syncAllSubmodules env root ps := by
  rw [syncAllSubmodules_eq_map env root ps hnd]
  have hmem : sm ∈ syncTargets env root ps := by
    rw [syncTargets, List.mem_filter]
    exact ⟨hsm, by simp [htgt]⟩
  have hval : SubmoduleService.syncEntry env root sm =
      { success := false,
        message := "No recorded commit found for \x27" ++ sm.path ++ "\x27" } := by
    rw [SubmoduleService.syncEntry]
    simp [hrec]
  exact List.mem_map.mpr ⟨sm, hmem, by rw [hval]⟩

/-- Environment shared by the C7/C8 witnesses: `.gitmodules` declares one
submodule `libA`, which was never cloned (its HEAD lookup fails) and has no
tree entry in the parent (the `ls-tree` lookup fails). -/
def envC78 : GitEnv := fun args _ =>
  if args = ["config", "--file", ".gitmodules", "--get-regexp", "path"] then
    .ok "submodule.libA.path libA"
  else .error "unexpected"

/-- The descriptor `envC78` produces for `libA`. -/
def smC78 : SubmoduleInfo :=
  { name := "libA", path := "libA", url := "", branch := "main", currentCommit := "",
    currentBranch := "", status := .uninitialized, hasChanges := false, ahead := 0, behind := 0 }

/-- C7, witness: under `envC78`, `syncAllSubmodules` reports the named
failure entry for `libA` instead of skipping it. -/
theorem claim_C7_witness :
    (("libA" : String),
      ({ success := false, message := "No recorded commit found for \x27libA\x27" } : CommandResult))
      ∈ SubmoduleService.syncAllSubmodules envC78 "w" none := by
  have h := claim_C7_missing_recorded_commit envC78 "w" none smC78
    (by decide) (by decide) rfl rfl
  simpa [smC78] using h

/-! ### Claim C8: submodule enumeration never throws and never drops -/

/-- C8: (1) when the `.gitmodules` config query fails, `getSubmodules`
returns the empty list; (2) when a submodule's HEAD lookup fails (no `.git`
reachable), its descriptor is `status = uninitialized` with empty
commit/branch fields; (3) every `.gitmodules` path entry that the regex
matches yields a descriptor in the enumeration — never dropped, whatever the
environment answers for that path. -/
theorem claim_C8_enumeration_total :
    (∀ (env : GitEnv) (root e : String),
        env ["config", "--file", ".gitmodules", "--get-regexp", "path"] root = .error e →
        SubmoduleService.getSubmodules env root = []) ∧
    (∀ (env : GitEnv) (root name p e : String),
        env ["rev-parse", "HEAD"] (pathJoin root p) = .error e →
        (SubmoduleService.getSubmoduleInfo env root name p).status = .uninitialized ∧
        (SubmoduleService.getSubmoduleInfo env root name p).currentCommit = "" ∧
        (SubmoduleService.getSubmoduleInfo env root name p).currentBranch = "") ∧
    (∀ (env : GitEnv) (root cfg line : String) (r : List Char × List Char),
        env ["config", "--file", ".gitmodules", "--get-regexp", "path"] root = .ok cfg →
        line ∈ (jsSplit cfg "\n").filter (fun l => jsTrim l != "") →
        matchSubmoduleLine line.data = some r →
        SubmoduleService.getSubmoduleInfo env root (String.mk r.1) (String.mk r.2) ∈
          SubmoduleService.getSubmodules env root) := by
  refine ⟨?_, ?_, ?_⟩
  · intro env root e h
    rw [SubmoduleService.getSubmodules]
    simp [h]
  · intro env root name p e h
    have hh := SubmoduleService.info_of_revparse_fail env root name p e h
    exact ⟨hh.1, hh.2.1, hh.2.2.1⟩
  · intro env root cfg line r hcfg hline hmatch
    rw [SubmoduleService.getSubmodules]
    simp only [hcfg]
    exact List.mem_filterMap.mpr ⟨line, hline, by rw [hmatch]⟩

/-- Environment for the first C8 witness clause: no `.gitmodules` at all. -/
def envC8empty : GitEnv := fun _ _ => .error "fatal: no such file"

/-- C8, witness: no `.gitmodules` gives the empty enumeration; the uncloned
`libA` of `envC78` is still enumerated, with the empty uninitialized
descriptor. -/
theorem claim_C8_witness :
    SubmoduleService.getSubmodules envC8empty "w" = [] ∧
    (SubmoduleService.getSubmoduleInfo envC78 "w" "libA" "libA").status = .uninitialized ∧
    SubmoduleService.getSubmoduleInfo envC78 "w" "libA" "libA" ∈
      SubmoduleService.getSubmodules envC78 "w" :=
  ⟨claim_C8_enumeration_total.1 envC8empty "w" "fatal: no such file" rfl,
   (claim_C8_enumeration_total.2.1 envC78 "w" "libA" "libA" "unexpected" rfl).1,
   claim_C8_enumeration_total.2.2 envC78 "w" "submodule.libA.path libA"
     "submodule.libA.path libA" (⟨"libA".data, "libA".data⟩)
     rfl (by decide) (by decide)⟩

end SubmoduleManager
